import Mathlib

/-!
Shallow embedding of the access-control core of `react-access-control`
(`src/core/types.ts`, `src/core/utils` section, `src/adapters/storage.ts`).

JavaScript strings at the evaluator level are modelled as Lean `String`
(exact string equality).  At the byte level (XOR obfuscation, base64,
cache-key generation) strings are modelled as lists of UTF-16 code units
(`JStr := List Nat`).  Machine integers do not overflow in this code
(timestamps and code units stay far below 2^53), so `Int`/`Nat` are used
directly.  Fallible operations (`btoa`/`atob`, storage backends) are
modelled with `Except Unit`.
-/

namespace RAC

/-- The `FeatureFlag` from `src/core/types.ts` (fields used by the logic). -/
structure FeatureFlag where
  id : String
  name : String
  enabled : Bool
deriving DecidableEq, Repr

/-- The `UserPermissions` from `src/core/types.ts` (fields used by the logic). -/
structure UserPermissions where
  permissions : List String
  roles : List String
deriving DecidableEq, Repr

/-- The `AccessControlConfig` from `src/core/types.ts`, parametric in the string
type so the same shape serves the evaluator (`σ = String`) and the
code-unit-level serializer (`σ = List Nat`). -/
structure AccessControlConfig (σ : Type) where
  feature : Option σ := none
  anyFeature : Option (List σ) := none
  allFeatures : Option (List σ) := none
  permission : Option σ := none
  anyPermission : Option (List σ) := none
  allPermissions : Option (List σ) := none
  requireBoth : Option Bool := none
deriving DecidableEq, Repr

/-- The `hasPermission` (utils): `userPermissions.includes(permission)`. -/
def hasPermission (userPermissions : List String) (permission : String) : Bool :=
  userPermissions.contains permission

/-- The `hasAnyPermission` (utils): `permissions.some(p => userPermissions.includes(p))`. -/
def hasAnyPermission (userPermissions : List String) (permissions : List String) : Bool :=
  permissions.any fun permission => userPermissions.contains permission

/-- The `hasAllPermissions` (utils): `permissions.every(p => userPermissions.includes(p))`. -/
def hasAllPermissions (userPermissions : List String) (permissions : List String) : Bool :=
  permissions.all fun permission => userPermissions.contains permission

/-- The `hasFeature` (utils): find the first flag whose `id` or `name` equals the
requested feature, and return its `enabled` state (`false` when absent). -/
def hasFeature (featureFlags : List FeatureFlag) (feature : String) : Bool :=
  match featureFlags.find? fun f => f.id == feature || f.name == feature with
  | some flag => flag.enabled
  | none => false

/-- The `hasAnyFeature` (utils): `features.some(f => hasFeature(featureFlags, f))`. -/
def hasAnyFeature (featureFlags : List FeatureFlag) (features : List String) : Bool :=
  features.any fun feature => hasFeature featureFlags feature

/-- The `hasAllFeatures` (utils): `features.every(f => hasFeature(featureFlags, f))`. -/
def hasAllFeatures (featureFlags : List FeatureFlag) (features : List String) : Bool :=
  features.all fun feature => hasFeature featureFlags feature

/-- JavaScript truthiness of an optional string (`undefined` and `""` are falsy). -/
def strTruthy : Option String → Bool
  | none => false
  | some s => s ≠ ""

/-- Truthiness of `arr && arr.length > 0` for an optional array. -/
def listNonempty {σ : Type} : Option (List σ) → Bool
  | none => false
  | some l => !l.isEmpty

/-- Result record of `evaluateAccessControl`. -/
structure EvalResult where
  hasAccess : Bool
  hasFeatureAccess : Bool
  hasPermissionAccess : Bool
  hasFeatureCheck : Bool
  hasPermissionCheck : Bool
deriving DecidableEq, Repr

/-- The `checkFeatureAccess` closure inside `evaluateAccessControl`. -/
def checkFeatureAccess (config : AccessControlConfig String)
    (featureFlags : List FeatureFlag) : Bool :=
  if strTruthy config.feature then
    hasFeature featureFlags (config.feature.getD "")
  else if listNonempty config.anyFeature then
    hasAnyFeature featureFlags (config.anyFeature.getD [])
  else if listNonempty config.allFeatures then
    hasAllFeatures featureFlags (config.allFeatures.getD [])
  else
    true

/-- The `checkPermissionAccess` closure inside `evaluateAccessControl`. -/
def checkPermissionAccess (config : AccessControlConfig String)
    (userPermissions : UserPermissions) : Bool :=
  if strTruthy config.permission then
    hasPermission userPermissions.permissions (config.permission.getD "")
  else if listNonempty config.anyPermission then
    hasAnyPermission userPermissions.permissions (config.anyPermission.getD [])
  else if listNonempty config.allPermissions then
    hasAllPermissions userPermissions.permissions (config.allPermissions.getD [])
  else
    true

/-- The `evaluateAccessControl` from the utils section of `src/core/types.ts`. -/
def evaluateAccessControl (config : AccessControlConfig String)
    (userPermissions : UserPermissions) (featureFlags : List FeatureFlag) :
    EvalResult :=
  let requireBoth := config.requireBoth.getD false
  let hasFeatureCheck :=
    strTruthy config.feature || listNonempty config.anyFeature ||
      listNonempty config.allFeatures
  let hasPermissionCheck :=
    strTruthy config.permission || listNonempty config.anyPermission ||
      listNonempty config.allPermissions
  let hasFeatureAccess := checkFeatureAccess config featureFlags
  let hasPermissionAccess := checkPermissionAccess config userPermissions
  let hasAccess :=
    if !hasFeatureCheck && !hasPermissionCheck then
      false
    else if requireBoth then
      if hasFeatureCheck && hasPermissionCheck then
        hasFeatureAccess && hasPermissionAccess
      else if hasFeatureCheck then hasFeatureAccess else hasPermissionAccess
    else
      if hasFeatureCheck && hasPermissionCheck then
        hasFeatureAccess || hasPermissionAccess
      else if hasFeatureCheck then hasFeatureAccess else hasPermissionAccess
  { hasAccess := hasAccess
    hasFeatureAccess := hasFeatureAccess
    hasPermissionAccess := hasPermissionAccess
    hasFeatureCheck := hasFeatureCheck
    hasPermissionCheck := hasPermissionCheck }

/-- The `CacheEntry` from `src/core/types.ts`.  Timestamps are milliseconds; the
arithmetic never overflows a JS number, so they are modelled as `Int`
(`expiresAt` can precede `timestamp` when a non-positive ttl is given). -/
structure CacheEntry (α : Type) where
  data : α
  timestamp : Int
  expiresAt : Int
deriving DecidableEq, Repr

/-- The `createCacheEntry(data, ttlMs = 5 * 60 * 1000)` called at time `now`. -/
def createCacheEntry {α : Type} (data : α) (ttlMs : Option Int) (now : Int) :
    CacheEntry α :=
  { data := data, timestamp := now, expiresAt := now + ttlMs.getD 300000 }

/-- The `isCacheValid`: `Date.now() < entry.expiresAt`, at time `now`. -/
def isCacheValid {α : Type} (now : Int) (entry : CacheEntry α) : Bool :=
  now < entry.expiresAt

/-- The backing `Map<string, CacheEntry>` of `MemoryCache`, as an
insertion-ordered association list (JS `Map` preserves insertion order). -/
abbrev MemoryCache (α : Type) := List (String × CacheEntry α)

/-- The `Map.prototype.set`: update in place when the key is present, else append. -/
def mapSet {α : Type} (m : MemoryCache α) (k : String) (e : CacheEntry α) :
    MemoryCache α :=
  if m.any fun p => p.1 == k then
    m.map fun p => if p.1 == k then (k, e) else p
  else m ++ [(k, e)]

/-- The `Map.prototype.get`. -/
def mapGet {α : Type} (m : MemoryCache α) (k : String) : Option (CacheEntry α) :=
  (m.find? fun p => p.1 == k).map Prod.snd

/-- The `Map.prototype.delete`. -/
def mapDelete {α : Type} (m : MemoryCache α) (k : String) : MemoryCache α :=
  m.filter fun p => p.1 != k

/-- Reachable `Map` states have pairwise-distinct keys. -/
def NodupKeys {α : Type} (m : MemoryCache α) : Prop :=
  (m.map Prod.fst).Nodup

/-- The `MemoryCache.get` at time `now`: returns the hit (if any) together with
the cache state after the read (expired entries are deleted by the read). -/
def cacheGet {α : Type} (m : MemoryCache α) (k : String) (now : Int) :
    Option α × MemoryCache α :=
  match mapGet m k with
  | none => (none, m)
  | some entry =>
    if isCacheValid now entry then (some entry.data, m)
    else (none, mapDelete m k)

/-- The `MemoryCache.set` at time `now`. -/
def cacheSet {α : Type} (m : MemoryCache α) (k : String) (data : α)
    (ttlMs : Option Int) (now : Int) : MemoryCache α :=
  mapSet m k (createCacheEntry data ttlMs now)

/-- The `MemoryCache.delete`. -/
def cacheDelete {α : Type} (m : MemoryCache α) (k : String) : MemoryCache α :=
  mapDelete m k

/-- The `MemoryCache.clear`. -/
def cacheClear (α : Type) : MemoryCache α := []

/-- The `MemoryCache.size`: `this.cache.size`. -/
def cacheSize {α : Type} (m : MemoryCache α) : Nat := m.length

/-! Byte-level strings, `btoa` / `atob`, and the XOR-obfuscating adapter

JavaScript strings are sequences of UTF-16 code units; at this level they
are modelled as `List Nat`.  `btoa` throws (here: `Except.error`) on any
code unit above 255 and base64-encodes otherwise; `atob` implements the
WHATWG forgiving-base64 decode (strip ASCII whitespace, strip up to two
trailing `=` when the length is a multiple of four, reject a remaining
length of 1 mod 4 or any character outside the alphabet). -/

/-- A JavaScript string as its UTF-16 code units. -/
abbrev JStr := List Nat

/-- The base64 alphabet character for a 6-bit value. -/
def b64char (k : Nat) : Nat :=
  if k < 26 then 65 + k
  else if k < 52 then 97 + (k - 26)
  else if k < 62 then 48 + (k - 52)
  else if k = 62 then 43
  else 47

/-- The 6-bit value of a base64 alphabet character (`none` off-alphabet). -/
def b64val (c : Nat) : Option Nat :=
  if 65 ≤ c ∧ c ≤ 90 then some (c - 65)
  else if 97 ≤ c ∧ c ≤ 122 then some (c - 97 + 26)
  else if 48 ≤ c ∧ c ≤ 57 then some (c - 48 + 52)
  else if c = 43 then some 62
  else if c = 47 then some 63
  else none

/-- Base64 encoding of a byte sequence: three bytes become four alphabet
characters; a final group of one or two bytes is padded with `=` (61). -/
def btoaChunks : List Nat → List Nat
  | [] => []
  | [b0] => [b64char (b0 / 4), b64char (b0 % 4 * 16), 61, 61]
  | [b0, b1] =>
    [b64char (b0 / 4), b64char (b0 % 4 * 16 + b1 / 16), b64char (b1 % 16 * 4),
      61]
  | b0 :: b1 :: b2 :: rest =>
    b64char (b0 / 4) :: b64char (b0 % 4 * 16 + b1 / 16) ::
      b64char (b1 % 16 * 4 + b2 / 64) :: b64char (b2 % 64) :: btoaChunks rest

/-- The `btoa`: `InvalidCharacterError` on a code unit above 255. -/
def btoa (s : JStr) : Except Unit JStr :=
  if s.all (· < 256) then .ok (btoaChunks s) else .error ()

/-- ASCII whitespace stripped by forgiving-base64. -/
def isB64Ws (c : Nat) : Bool :=
  c = 9 || c = 10 || c = 12 || c = 13 || c = 32

/-- Remove up to two leading `=` of a reversed character list. -/
def stripPadRev : List Nat → List Nat
  | c1 :: c2 :: r =>
    if c1 = 61 then (if c2 = 61 then r else c2 :: r) else c1 :: c2 :: r
  | [c1] => if c1 = 61 then [] else [c1]
  | [] => []

/-- Remove up to two trailing `=`. -/
def stripPad (t : List Nat) : List Nat :=
  (stripPadRev t.reverse).reverse

/-- Validate every character against the base64 alphabet, in order. -/
def mapB64 : List Nat → Option (List Nat)
  | [] => some []
  | c :: r =>
    match b64val c, mapB64 r with
    | some v, some vs => some (v :: vs)
    | _, _ => none

/-- Reassemble bytes from 6-bit values; a trailing group of two or three
values yields one or two bytes, discarding the leftover low bits. -/
def decodeVals : List Nat → List Nat
  | v0 :: v1 :: v2 :: v3 :: rest =>
    (v0 * 4 + v1 / 16) :: (v1 % 16 * 16 + v2 / 4) :: (v2 % 4 * 64 + v3) ::
      decodeVals rest
  | [v0, v1] => [v0 * 4 + v1 / 16]
  | [v0, v1, v2] => [v0 * 4 + v1 / 16, v1 % 16 * 16 + v2 / 4]
  | _ => []

/-- The `atob` (forgiving-base64 decode). -/
def atob (s : JStr) : Except Unit JStr :=
  let t := s.filter fun c => !isB64Ws c
  let t2 := if t.length % 4 = 0 then stripPad t else t
  if t2.length % 4 = 1 then .error ()
  else
    match mapB64 t2 with
    | none => .error ()
    | some vals => .ok (decodeVals vals)

/-- Proof helper: `btoaChunks` with the trailing `=` padding removed. -/
def strippedChunks : List Nat → List Nat
  | [] => []
  | [b0] => [b64char (b0 / 4), b64char (b0 % 4 * 16)]
  | [b0, b1] =>
    [b64char (b0 / 4), b64char (b0 % 4 * 16 + b1 / 16), b64char (b1 % 16 * 4)]
  | b0 :: b1 :: b2 :: rest =>
    b64char (b0 / 4) :: b64char (b0 % 4 * 16 + b1 / 16) ::
      b64char (b1 % 16 * 4 + b2 / 64) :: b64char (b2 % 64) ::
        strippedChunks rest

/-- Proof helper: the 6-bit values underlying `strippedChunks`. -/
def stripVals : List Nat → List Nat
  | [] => []
  | [b0] => [b0 / 4, b0 % 4 * 16]
  | [b0, b1] => [b0 / 4, b0 % 4 * 16 + b1 / 16, b1 % 16 * 4]
  | b0 :: b1 :: b2 :: rest =>
    b0 / 4 :: (b0 % 4 * 16 + b1 / 16) :: (b1 % 16 * 4 + b2 / 64) :: b2 % 64 ::
      stripVals rest

/-- The `secretKey.charCodeAt(i % secretKey.length)`: on the empty key the index
is `NaN`, `charCodeAt` yields `NaN`, and `NaN` converts to 0 under `^`. -/
def jsKeyCode (secret : JStr) (i : Nat) : Nat :=
  if secret.length = 0 then 0 else secret.getD (i % secret.length) 0

/-- The XOR loop shared by `encrypt` and `decrypt` in
`EncryptedStorageAdapter` (`src/adapters/storage.ts`), from position `i`. -/
def xorKeyAux (secret : JStr) : Nat → JStr → JStr
  | _, [] => []
  | i, c :: cs => (c ^^^ jsKeyCode secret i) :: xorKeyAux secret (i + 1) cs

/-- Byte-wise XOR of a text against the repeating secret key. -/
def xorKey (secret : JStr) (text : JStr) : JStr :=
  xorKeyAux secret 0 text

/-- The `EncryptedStorageAdapter.encrypt`: XOR, then `btoa` (whose exception is
not caught here). -/
def encrypt (secret : JStr) (text : JStr) : Except Unit JStr :=
  btoa (xorKey secret text)

/-- The `EncryptedStorageAdapter.decrypt`: its internal try/catch turns an
`atob` failure into the empty string. -/
def decrypt (secret : JStr) (encryptedText : JStr) : JStr :=
  match atob encryptedText with
  | .ok t => xorKey secret t
  | .error _ => []

/-! Storage adapters

Backend outcomes are abstracted as `Except Unit` values; each adapter
definition reproduces the source's try/catch placement.  A working
in-memory base adapter (as `MockStorageAdapter` provides) is a partial map
from keys to stored strings. -/

/-- A working key-value backing store. -/
abbrev Store := JStr → Option JStr

/-- Update a store. -/
def storeSet (st : Store) (k v : JStr) : Store :=
  fun k2 => if k2 = k then some v else st k2

/-- The `EncryptedStorageAdapter.getItem` over a working base adapter: a falsy
stored value (absent or empty) short-circuits to `null`; otherwise the
decrypted text is returned (`decrypt` itself never throws). -/
def encGetItem (secret : JStr) (k : JStr) (st : Store) : Option JStr :=
  match st k with
  | none => none
  | some ev => if ev = [] then none else some (decrypt secret ev)

/-- The `EncryptedStorageAdapter.setItem` over a working base adapter: `encrypt`
runs outside any try/catch, so its failure propagates and nothing is
stored. -/
def encSetItem (secret k v : JStr) (st : Store) : Except Unit Store :=
  match encrypt secret v with
  | .ok ev => .ok (storeSet st k ev)
  | .error e => .error e

/-- The `setItem(k, v)` immediately followed by `getItem(k)` (the stated
round-trip); a failed `setItem` leaves nothing to read. -/
def encRoundTrip (secret k v : JStr) (st : Store) : Option JStr :=
  match encSetItem secret k v st with
  | .ok st2 => encGetItem secret k st2
  | .error _ => none

/-- The `LocalStorageAdapter.getItem`: try/catch around the backend read. -/
def lsGetItem (backend : Except Unit (Option JStr)) : Except Unit (Option JStr) :=
  match backend with
  | .ok v => .ok v
  | .error _ => .ok none

/-- The `LocalStorageAdapter.setItem`: try/catch, silent failure. -/
def lsSetItem (backend : Except Unit Unit) : Except Unit Unit :=
  match backend with
  | .ok u => .ok u
  | .error _ => .ok ()

/-- The `LocalStorageAdapter.removeItem`: try/catch, silent failure. -/
def lsRemoveItem (backend : Except Unit Unit) : Except Unit Unit :=
  match backend with
  | .ok u => .ok u
  | .error _ => .ok ()

/-- The `SessionStorageAdapter.getItem` (same shape over `sessionStorage`). -/
def ssGetItem (backend : Except Unit (Option JStr)) : Except Unit (Option JStr) :=
  match backend with
  | .ok v => .ok v
  | .error _ => .ok none

/-- The `SessionStorageAdapter.setItem`. -/
def ssSetItem (backend : Except Unit Unit) : Except Unit Unit :=
  match backend with
  | .ok u => .ok u
  | .error _ => .ok ()

/-- The `SessionStorageAdapter.removeItem`. -/
def ssRemoveItem (backend : Except Unit Unit) : Except Unit Unit :=
  match backend with
  | .ok u => .ok u
  | .error _ => .ok ()

/-- The `AsyncStorageAdapter.getItem` (awaited inside try, so a rejection is
caught). -/
def asGetItem (backend : Except Unit (Option JStr)) : Except Unit (Option JStr) :=
  match backend with
  | .ok v => .ok v
  | .error _ => .ok none

/-- The `AsyncStorageAdapter.setItem`. -/
def asSetItem (backend : Except Unit Unit) : Except Unit Unit :=
  match backend with
  | .ok u => .ok u
  | .error _ => .ok ()

/-- The `AsyncStorageAdapter.removeItem`. -/
def asRemoveItem (backend : Except Unit Unit) : Except Unit Unit :=
  match backend with
  | .ok u => .ok u
  | .error _ => .ok ()

/-- The `MockStorageAdapter.getItem`: `this.storage.get(key) || null` collapses
a stored empty string to `null`. -/
def mockGetItem (st : Store) (k : JStr) : Except Unit (Option JStr) :=
  .ok (match st k with
    | some v => if v = [] then none else some v
    | none => none)

/-- The `MockStorageAdapter.setItem`. -/
def mockSetItem (st : Store) (k v : JStr) : Except Unit Store :=
  .ok (storeSet st k v)

/-- The `MockStorageAdapter.removeItem`. -/
def mockRemoveItem (st : Store) (k : JStr) : Except Unit Store :=
  .ok fun k2 => if k2 = k then none else st k2

/-- The `IndexedDBStorageAdapter.getItem`: `openDB` is awaited inside the try,
so its rejection is caught (`null`); the store request's promise is
*returned* from inside the try, so its rejection is not caught and
propagates.  On success `request.result || null` collapses a falsy result. -/
def idbGetItem (openR : Except Unit Unit) (reqR : Except Unit (Option JStr)) :
    Except Unit (Option JStr) :=
  match openR with
  | .error _ => .ok none
  | .ok _ =>
    match reqR with
    | .error e => .error e
    | .ok (some v) => .ok (if v = [] then none else some v)
    | .ok none => .ok none

/-- The `IndexedDBStorageAdapter.setItem`: same caught-open / uncaught-request
structure. -/
def idbSetItem (openR : Except Unit Unit) (reqR : Except Unit Unit) :
    Except Unit Unit :=
  match openR with
  | .error _ => .ok ()
  | .ok _ => reqR

/-- The `IndexedDBStorageAdapter.removeItem`. -/
def idbRemoveItem (openR : Except Unit Unit) (reqR : Except Unit Unit) :
    Except Unit Unit :=
  match openR with
  | .error _ => .ok ()
  | .ok _ => reqR

/-- The `MultiTierStorageAdapter.getItem`: each tier is awaited inside a
try/catch; a thrown tier or a `null` result moves to the next tier. -/
def multiGetItem : List (Except Unit (Option JStr)) → Except Unit (Option JStr)
  | [] => .ok none
  | r :: rest =>
    match r with
    | .error _ => multiGetItem rest
    | .ok none => multiGetItem rest
    | .ok (some v) => .ok (some v)

/-- The `MultiTierStorageAdapter.setItem`: per-tier try/catch plus
`Promise.allSettled`, so the fan-out always completes. -/
def multiSetItem (_tiers : List (Except Unit Unit)) : Except Unit Unit :=
  .ok ()

/-- The `MultiTierStorageAdapter.removeItem`. -/
def multiRemoveItem (_tiers : List (Except Unit Unit)) : Except Unit Unit :=
  .ok ()

/-- The `EncryptedStorageAdapter.getItem` over an arbitrary base adapter: the
`await baseAdapter.getItem(key)` sits outside the try, so a base failure
propagates; afterwards nothing can throw. -/
def encGetItemG (secret : JStr) (baseGet : Except Unit (Option JStr)) :
    Except Unit (Option JStr) :=
  match baseGet with
  | .error e => .error e
  | .ok none => .ok none
  | .ok (some ev) => .ok (if ev = [] then none else some (decrypt secret ev))

/-- The `EncryptedStorageAdapter.setItem` over an arbitrary base adapter. -/
def encSetItemG (secret v : JStr) (baseSet : JStr → Except Unit Unit) :
    Except Unit Unit :=
  match encrypt secret v with
  | .error e => .error e
  | .ok ev => baseSet ev

/-- The `EncryptedStorageAdapter.removeItem`: a plain uncaught delegation. -/
def encRemoveItemG (baseRemove : Except Unit Unit) : Except Unit Unit :=
  baseRemove

/-! Model of `JSON.stringify` on an `AccessControlConfig`, and `generateCacheKey`.

`JSON.stringify` serializes the config object's own enumerable fields in
insertion order — for a config built field-by-field, the interface's
declaration order — omitting `undefined` fields, escaping quote, backslash
and control characters inside string literals, and keeping all other code
units literal (surrogate code units are modelled as kept literal, which is
stringify's behavior inside well-formed strings). -/

/-- The code units of an ASCII literal. -/
def asciiL (s : String) : JStr := s.data.map Char.toNat

/-- Lowercase hexadecimal digit. -/
def hexDig (n : Nat) : Nat := if n < 10 then 48 + n else 87 + n

/-- The `JSON.stringify` escaping of one code unit inside a string literal. -/
def escChar (c : Nat) : JStr :=
  if c = 34 then [92, 34]
  else if c = 92 then [92, 92]
  else if c = 8 then [92, 98]
  else if c = 9 then [92, 116]
  else if c = 10 then [92, 110]
  else if c = 12 then [92, 102]
  else if c = 13 then [92, 114]
  else if c < 32 then [92, 117, 48, 48, hexDig (c / 16), hexDig (c % 16)]
  else [c]

/-- Escape a whole string body. -/
def escape (s : JStr) : JStr := s.flatMap escChar

/-- A JSON string literal. -/
def jsonStr (s : JStr) : JStr := 34 :: escape s ++ [34]

/-- The ", elem, elem, ..." continuation of a JSON array body. -/
def arrTail : List JStr → JStr
  | [] => []
  | x :: xs => 44 :: (jsonStr x ++ arrTail xs)

/-- Comma-separated string literals. -/
def arrBody : List JStr → JStr
  | [] => []
  | x :: xs => jsonStr x ++ arrTail xs

/-- A JSON array of strings. -/
def serArr (l : List JStr) : JStr := 91 :: arrBody l ++ [93]

/-- A JSON boolean: the code units of "true" / "false". -/
def serBool (b : Bool) : JStr :=
  if b then [116, 114, 117, 101] else [102, 97, 108, 115, 101]

/-- The three value shapes an `AccessControlConfig` field can take. -/
inductive FieldVal : Type
  | fstr (s : JStr)
  | farr (l : List JStr)
  | fbool (b : Bool)
deriving DecidableEq

/-- Serialize one field value. -/
def serVal : FieldVal → JStr
  | .fstr s => jsonStr s
  | .farr l => serArr l
  | .fbool b => serBool b

/-- The config's fields, tag plus optional value, in declaration order. -/
def configFields (c : AccessControlConfig JStr) :
    List (JStr × Option FieldVal) :=
  [(asciiL "feature", c.feature.map .fstr),
   (asciiL "anyFeature", c.anyFeature.map .farr),
   (asciiL "allFeatures", c.allFeatures.map .farr),
   (asciiL "permission", c.permission.map .fstr),
   (asciiL "anyPermission", c.anyPermission.map .farr),
   (asciiL "allPermissions", c.allPermissions.map .farr),
   (asciiL "requireBoth", c.requireBoth.map .fbool)]

/-- The `"tag":value` strings for the present fields, in order. -/
def fieldPieces : List (JStr × Option FieldVal) → List JStr
  | [] => []
  | (_, none) :: rest => fieldPieces rest
  | (tag, some v) :: rest =>
    (34 :: tag ++ 34 :: 58 :: serVal v) :: fieldPieces rest

/-- The ", piece, piece, ..." continuation of a comma join. -/
def glueTail : List JStr → JStr
  | [] => []
  | p :: ps => 44 :: (p ++ glueTail ps)

/-- Comma join (as `JSON.stringify` writes object members). -/
def glue : List JStr → JStr
  | [] => []
  | p :: ps => p ++ glueTail ps

/-- The `JSON.stringify(config)`. -/
def jsonConfig (c : AccessControlConfig JStr) : JStr :=
  123 :: glue (fieldPieces (configFields c)) ++ [125]

/-- The `userId || 'anonymous'`: an absent or empty id falls back to the
sentinel. -/
def jsUser : Option JStr → JStr
  | none => asciiL "anonymous"
  | some u => if u = [] then asciiL "anonymous" else u

/-- The `generateCacheKey`:
`` `access-control:${userString}:${btoa(configString)}` `` — `btoa`'s
exception propagates for a config whose serialization leaves Latin-1. -/
def generateCacheKey (config : AccessControlConfig JStr)
    (userId : Option JStr) : Except Unit JStr :=
  match btoa (jsonConfig config) with
  | .ok b => .ok (asciiL "access-control" ++ 58 :: jsUser userId ++ 58 :: b)
  | .error e => .error e

/-- Proof helper: value of a lowercase hexadecimal digit. -/
def hexVal (c : Nat) : Option Nat :=
  if 48 ≤ c ∧ c ≤ 57 then some (c - 48)
  else if 97 ≤ c ∧ c ≤ 102 then some (c - 87)
  else none

/-- Proof helper: the single-character JSON escapes. -/
def simpleUnesc (k : Nat) : Option Nat :=
  if k = 34 then some 34
  else if k = 92 then some 92
  else if k = 98 then some 8
  else if k = 116 then some 9
  else if k = 110 then some 10
  else if k = 102 then some 12
  else if k = 114 then some 13
  else none

/-- Proof helper: read an escaped string body up to its closing quote,
returning the decoded body and the remainder.  A left inverse of `escape`
on its image, used only to prove the serialization injective. -/
def parseStrAux : JStr → Option (JStr × JStr)
  | [] => none
  | c :: rest =>
    if c = 34 then some ([], rest)
    else if c = 92 then
      match rest with
      | 117 :: h1 :: h2 :: h3 :: h4 :: r2 =>
        match hexVal h1, hexVal h2, hexVal h3, hexVal h4 with
        | some v1, some v2, some v3, some v4 =>
          (parseStrAux r2).map fun p =>
            ((v1 * 4096 + v2 * 256 + v3 * 16 + v4) :: p.1, p.2)
        | _, _, _, _ => none
      | k :: r2 =>
        match simpleUnesc k with
        | some ch => (parseStrAux r2).map fun p => (ch :: p.1, p.2)
        | none => none
      | [] => none
    else (parseStrAux rest).map fun p => (c :: p.1, p.2)

theorem strTruthy_iff (o : Option String) :
    strTruthy o = true ↔ ∃ s, o = some s ∧ s ≠ "" := by
  cases o <;> simp [strTruthy]

theorem listNonempty_iff {σ : Type} (o : Option (List σ)) :
    listNonempty o = true ↔ ∃ l, o = some l ∧ l ≠ [] := by
  cases o with
  | none => simp [listNonempty]
  | some l => cases l <;> simp [listNonempty]

theorem hasFeature_iff (F : List FeatureFlag) (x : String) :
    hasFeature F x = true ↔
      ∃ g, F.find? (fun f => f.id == x || f.name == x) = some g ∧ g.enabled = true := by
  unfold hasFeature
  cases h : F.find? (fun f => f.id == x || f.name == x) <;> simp [h]

theorem hasPermission_iff (P : List String) (x : String) :
    hasPermission P x = true ↔ x ∈ P := by
  simp [hasPermission, List.elem_iff, List.contains]

/-- C1: for every config, user permissions and feature-flag list,
`evaluateAccessControl`'s `hasAccess` is `false` when neither a feature check
nor a permission check is requested (regardless of `requireBoth`); the AND of
the two sub-results when `requireBoth` is true and both checks are requested;
their OR when `requireBoth` is false and both are requested; and the result of
the single requested check when exactly one kind of check is requested. -/
theorem evaluateAccessControl_final_access_cases
    (cfg : AccessControlConfig String) (up : UserPermissions)
    (fl : List FeatureFlag) :
    ((evaluateAccessControl cfg up fl).hasFeatureCheck = false →
      (evaluateAccessControl cfg up fl).hasPermissionCheck = false →
      (evaluateAccessControl cfg up fl).hasAccess = false)
    ∧ (cfg.requireBoth.getD false = true →
        (evaluateAccessControl cfg up fl).hasFeatureCheck = true →
        (evaluateAccessControl cfg up fl).hasPermissionCheck = true →
        (evaluateAccessControl cfg up fl).hasAccess =
          ((evaluateAccessControl cfg up fl).hasFeatureAccess &&
            (evaluateAccessControl cfg up fl).hasPermissionAccess))
    ∧ (cfg.requireBoth.getD false = false →
        (evaluateAccessControl cfg up fl).hasFeatureCheck = true →
        (evaluateAccessControl cfg up fl).hasPermissionCheck = true →
        (evaluateAccessControl cfg up fl).hasAccess =
          ((evaluateAccessControl cfg up fl).hasFeatureAccess ||
            (evaluateAccessControl cfg up fl).hasPermissionAccess))
    ∧ ((evaluateAccessControl cfg up fl).hasFeatureCheck = true →
        (evaluateAccessControl cfg up fl).hasPermissionCheck = false →
        (evaluateAccessControl cfg up fl).hasAccess =
          (evaluateAccessControl cfg up fl).hasFeatureAccess)
    ∧ ((evaluateAccessControl cfg up fl).hasFeatureCheck = false →
        (evaluateAccessControl cfg up fl).hasPermissionCheck = true →
        (evaluateAccessControl cfg up fl).hasAccess =
          (evaluateAccessControl cfg up fl).hasPermissionAccess) := by
  cases hf : (strTruthy cfg.feature || listNonempty cfg.anyFeature ||
      listNonempty cfg.allFeatures) <;>
    cases hp : (strTruthy cfg.permission || listNonempty cfg.anyPermission ||
        listNonempty cfg.allPermissions) <;>
      cases hrb : cfg.requireBoth.getD false <;>
        simp [evaluateAccessControl, hf, hp, hrb]

/-- Witness for C1: with `requireBoth`, a feature check and a permission check
both requested, the final access is the AND of the two sub-results. -/
theorem evaluateAccessControl_final_access_cases_witness :
    (evaluateAccessControl
        { feature := some "f", permission := some "p", requireBoth := some true }
        ⟨["p"], []⟩ [⟨"f", "Flag", true⟩]).hasAccess =
      ((evaluateAccessControl
          { feature := some "f", permission := some "p", requireBoth := some true }
          ⟨["p"], []⟩ [⟨"f", "Flag", true⟩]).hasFeatureAccess &&
        (evaluateAccessControl
            { feature := some "f", permission := some "p", requireBoth := some true }
            ⟨["p"], []⟩ [⟨"f", "Flag", true⟩]).hasPermissionAccess) :=
  (evaluateAccessControl_final_access_cases
      { feature := some "f", permission := some "p", requireBoth := some true }
      ⟨["p"], []⟩ [⟨"f", "Flag", true⟩]).2.1 (by decide) (by decide) (by decide)

/-- C2: when no feature check is requested (feature unset, `anyFeature` empty
or unset, `allFeatures` empty or unset), `hasFeatureAccess` is `true`
(pass-through) and `hasFeatureCheck` is `false`; symmetrically for
permissions; and `hasFeatureCheck` / `hasPermissionCheck` are `true` exactly
when the corresponding check is requested (a truthy single id, or a non-empty
any/all array). -/
theorem evaluateAccessControl_no_check_passthrough
    (cfg : AccessControlConfig String) (up : UserPermissions)
    (fl : List FeatureFlag) :
    (cfg.feature = none →
      (cfg.anyFeature = none ∨ cfg.anyFeature = some []) →
      (cfg.allFeatures = none ∨ cfg.allFeatures = some []) →
      (evaluateAccessControl cfg up fl).hasFeatureAccess = true ∧
        (evaluateAccessControl cfg up fl).hasFeatureCheck = false)
    ∧ (cfg.permission = none →
        (cfg.anyPermission = none ∨ cfg.anyPermission = some []) →
        (cfg.allPermissions = none ∨ cfg.allPermissions = some []) →
        (evaluateAccessControl cfg up fl).hasPermissionAccess = true ∧
          (evaluateAccessControl cfg up fl).hasPermissionCheck = false)
    ∧ ((evaluateAccessControl cfg up fl).hasFeatureCheck = true ↔
        (∃ s, cfg.feature = some s ∧ s ≠ "") ∨
          (∃ l, cfg.anyFeature = some l ∧ l ≠ []) ∨
            (∃ l, cfg.allFeatures = some l ∧ l ≠ []))
    ∧ ((evaluateAccessControl cfg up fl).hasPermissionCheck = true ↔
        (∃ s, cfg.permission = some s ∧ s ≠ "") ∨
          (∃ l, cfg.anyPermission = some l ∧ l ≠ []) ∨
            (∃ l, cfg.allPermissions = some l ∧ l ≠ [])) := by
  refine ⟨?_, ?_, ?_, ?_⟩
  · intro h1 h2 h3
    rcases h2 with h2 | h2 <;> rcases h3 with h3 | h3 <;>
      simp [evaluateAccessControl, checkFeatureAccess, h1, h2, h3,
        strTruthy, listNonempty]
  · intro h1 h2 h3
    rcases h2 with h2 | h2 <;> rcases h3 with h3 | h3 <;>
      simp [evaluateAccessControl, checkPermissionAccess, h1, h2, h3,
        strTruthy, listNonempty]
  · simp only [evaluateAccessControl, Bool.or_eq_true, strTruthy_iff,
      listNonempty_iff, or_assoc]
  · simp only [evaluateAccessControl, Bool.or_eq_true, strTruthy_iff,
      listNonempty_iff, or_assoc]

/-- Witness for C2: a config with only a permission check leaves the feature
side as a pass-through. -/
theorem evaluateAccessControl_no_check_passthrough_witness :
    (evaluateAccessControl { permission := some "x" } ⟨[], []⟩ []).hasFeatureAccess
        = true ∧
      (evaluateAccessControl { permission := some "x" } ⟨[], []⟩ []).hasFeatureCheck
        = false :=
  (evaluateAccessControl_no_check_passthrough { permission := some "x" }
      ⟨[], []⟩ []).1 rfl (Or.inl rfl) (Or.inl rfl)

/-- C3: `hasAnyFeature` is true iff some listed id resolves (first exact match
on `id` or `name`) to an enabled flag, `hasAllFeatures` iff every listed id
does (vacuously true on the empty list, while `hasAnyFeature` of the empty
list is false); `hasPermission` is list membership, and
`hasAnyPermission` / `hasAllPermissions` are its ∃ / ∀ closures. -/
theorem membership_any_all_semantics
    (F : List FeatureFlag) (L : List String) (P : List String) (x : String)
    (M : List String) :
    (hasAnyFeature F L = true ↔
      ∃ i ∈ L, ∃ g, F.find? (fun f => f.id == i || f.name == i) = some g ∧
        g.enabled = true)
    ∧ (hasAllFeatures F L = true ↔
        ∀ i ∈ L, ∃ g, F.find? (fun f => f.id == i || f.name == i) = some g ∧
          g.enabled = true)
    ∧ hasAnyFeature F [] = false
    ∧ hasAllFeatures F [] = true
    ∧ (hasPermission P x = true ↔ x ∈ P)
    ∧ (hasAnyPermission P M = true ↔ ∃ p ∈ M, p ∈ P)
    ∧ (hasAllPermissions P M = true ↔ ∀ p ∈ M, p ∈ P) := by
  refine ⟨?_, ?_, rfl, rfl, hasPermission_iff P x, ?_, ?_⟩
  · simp [hasAnyFeature, List.any_eq_true, hasFeature_iff]
  · simp [hasAllFeatures, List.all_eq_true, hasFeature_iff]
  · simp [hasAnyPermission, List.any_eq_true, List.elem_iff, List.contains]
  · simp [hasAllPermissions, List.all_eq_true, List.elem_iff, List.contains]

/-- C10: a config whose `feature` (resp. `permission`) field is the empty
string is treated exactly as if that field were absent: the full evaluation
result coincides with the one for the field removed, and a config containing
only `feature := ""` (resp. only `permission := ""`) yields no requested
checks, pass-through sub-results, and `hasAccess = false` by deny-by-default. -/
theorem empty_string_check_ignored
    (cfg : AccessControlConfig String) (up : UserPermissions)
    (fl : List FeatureFlag) :
    (cfg.feature = some "" →
      evaluateAccessControl cfg up fl =
        evaluateAccessControl { cfg with feature := none } up fl)
    ∧ (cfg.permission = some "" →
        evaluateAccessControl cfg up fl =
          evaluateAccessControl { cfg with permission := none } up fl)
    ∧ evaluateAccessControl { feature := some "" } up fl =
        { hasAccess := false, hasFeatureAccess := true,
          hasPermissionAccess := true, hasFeatureCheck := false,
          hasPermissionCheck := false }
    ∧ evaluateAccessControl { permission := some "" } up fl =
        { hasAccess := false, hasFeatureAccess := true,
          hasPermissionAccess := true, hasFeatureCheck := false,
          hasPermissionCheck := false } := by
  refine ⟨?_, ?_, ?_, ?_⟩
  · intro h
    simp [evaluateAccessControl, checkFeatureAccess, checkPermissionAccess, h,
      strTruthy]
  · intro h
    simp [evaluateAccessControl, checkFeatureAccess, checkPermissionAccess, h,
      strTruthy]
  · simp [evaluateAccessControl, checkFeatureAccess, checkPermissionAccess,
      strTruthy, listNonempty]
  · simp [evaluateAccessControl, checkFeatureAccess, checkPermissionAccess,
      strTruthy, listNonempty]

/-- Witness for C10: `feature := ""` next to a real permission check evaluates
exactly like the config without the `feature` field. -/
theorem empty_string_check_ignored_witness :
    evaluateAccessControl { feature := some "", permission := some "admin" }
        ⟨["admin"], []⟩ [] =
      evaluateAccessControl { permission := some "admin" } ⟨["admin"], []⟩ [] :=
  (empty_string_check_ignored
      { feature := some "", permission := some "admin" }
      ⟨["admin"], []⟩ []).1 rfl

theorem mapSet_cons {α : Type} (p : String × CacheEntry α) (t : MemoryCache α)
    (k : String) (e : CacheEntry α) :
    mapSet (p :: t) k e =
      if p.1 == k then
        (k, e) :: t.map fun q => if q.1 == k then (k, e) else q
      else p :: mapSet t k e := by
  by_cases hpk : p.1 = k <;> cases ht : t.any (fun q => q.1 == k) <;>
    simp [mapSet, beq_iff_eq, hpk, ht]

theorem mapGet_mapSet_self {α : Type} (m : MemoryCache α) (k : String)
    (e : CacheEntry α) : mapGet (mapSet m k e) k = some e := by
  induction m with
  | nil => simp [mapSet, mapGet]
  | cons p t ih =>
    rw [mapSet_cons]
    cases hpk : p.1 == k <;> simp [mapGet, List.find?_cons, hpk] at ih ⊢
    exact ih

theorem mapSet_length {α : Type} (m : MemoryCache α) (k : String)
    (e : CacheEntry α) :
    (mapSet m k e).length =
      if m.any (fun p => p.1 == k) then m.length else m.length + 1 := by
  cases h : m.any (fun p => p.1 == k) <;> simp [mapSet, h]

theorem mapGet_mapDelete_self {α : Type} (m : MemoryCache α) (k : String) :
    mapGet (mapDelete m k) k = none := by
  simp only [mapGet, mapDelete, Option.map_eq_none', List.find?_eq_none,
    List.mem_filter]
  intro p hp
  simpa using hp.2

theorem mapGet_mapDelete_ne {α : Type} (m : MemoryCache α) (k k2 : String)
    (h : k2 ≠ k) : mapGet (mapDelete m k) k2 = mapGet m k2 := by
  induction m with
  | nil => rfl
  | cons p t ih =>
    by_cases hpk : p.1 = k
    · have hp2 : (p.1 == k2) = false := by
        simp only [beq_eq_false_iff_ne, ne_eq, hpk]
        exact fun hx => h hx.symm
      have hdrop : (p.1 != k) = false := by simp [bne, beq_iff_eq, hpk]
      simp only [mapDelete, List.filter_cons, hdrop] at ih ⊢
      simpa [mapGet, List.find?_cons, hp2] using ih
    · have hkeep : (p.1 != k) = true := by simp [bne, beq_iff_eq, hpk]
      cases hp2 : p.1 == k2 <;>
        simp only [mapDelete, List.filter_cons, hkeep] at ih ⊢ <;>
          simpa [mapGet, List.find?_cons, hp2] using ih

theorem mapDelete_eq_self {α : Type} (m : MemoryCache α) (k : String)
    (h : k ∉ m.map Prod.fst) : mapDelete m k = m := by
  refine List.filter_eq_self.mpr fun p hp => ?_
  have hne : p.1 ≠ k := fun hk1 => h (hk1 ▸ List.mem_map_of_mem Prod.fst hp)
  simpa [bne_iff_ne] using hne

theorem mapDelete_length {α : Type} (m : MemoryCache α) (k : String)
    (e : CacheEntry α) (hn : NodupKeys m) (h : mapGet m k = some e) :
    (mapDelete m k).length + 1 = m.length := by
  unfold NodupKeys at hn
  induction m with
  | nil => simp [mapGet] at h
  | cons p t ih =>
    simp only [List.map_cons, List.nodup_cons] at hn
    by_cases hpk : p.1 = k
    · have hdrop : (p.1 != k) = false := by simp [bne, beq_iff_eq, hpk]
      have hrest : mapDelete t k = t :=
        mapDelete_eq_self t k (hpk ▸ hn.1)
      simp only [mapDelete, List.filter_cons, hdrop] at *
      simp [hrest]
    · have hkeep : (p.1 != k) = true := by simp [bne, beq_iff_eq, hpk]
      have h' : mapGet t k = some e := by
        simpa [mapGet, List.find?_cons,
          show (p.1 == k) = false by simp [beq_iff_eq, hpk]] using h
      have hrec := ih hn.2 h'
      simp [mapDelete, List.filter_cons, hkeep] at hrec ⊢
      omega

/-- C4: cache round-trip.  `set(k, v, ttl)` immediately followed by `get(k)`
returns `v` when `ttl > 0` and is a miss when `ttl ≤ 0`; in both cases the
entry itself is stored (with expiry `now + ttl`, already expired for
`ttl ≤ 0`). -/
theorem cache_set_get_roundtrip {α : Type} (m : MemoryCache α) (k : String)
    (v : α) (ttl : Int) (now : Int) :
    (cacheGet (cacheSet m k v (some ttl) now) k now).1 =
        (if 0 < ttl then some v else none)
      ∧ mapGet (cacheSet m k v (some ttl) now) k =
          some { data := v, timestamp := now, expiresAt := now + ttl } := by
  have hset := mapGet_mapSet_self m k (createCacheEntry v (some ttl) now)
  constructor
  · unfold cacheGet cacheSet
    rw [hset]
    rcases lt_or_le 0 ttl with h | h
    · simp [createCacheEntry, isCacheValid, h, show now < now + ttl by omega]
    · simp [createCacheEntry, isCacheValid, h, show ¬now < now + ttl by omega,
        show ¬(0 : Int) < ttl by omega]
  · exact hset

/-- C5: cache expiry invariant.  A `get` never returns a value past its
expiry; reading an entry at or past its expiry is a miss that evicts exactly
that entry (other keys are untouched, and with well-formed unique keys the
size drops by exactly one); a valid read leaves the cache unchanged; and
`size` counts every stored entry regardless of expiry (a `set` grows it by
one for a new key and keeps it for an existing key, whatever the ttl). -/
theorem cache_expiry_eviction {α : Type} (m : MemoryCache α) (k k2 : String)
    (now : Int) (e : CacheEntry α) (v : α) (ttl : Option Int) (now2 : Int) :
    ((cacheGet m k now).1 = some v →
      ∃ e2, mapGet m k = some e2 ∧ now < e2.expiresAt ∧ v = e2.data)
    ∧ (mapGet m k = some e → e.expiresAt ≤ now →
        (cacheGet m k now).1 = none
        ∧ mapGet (cacheGet m k now).2 k = none
        ∧ (k2 ≠ k → mapGet (cacheGet m k now).2 k2 = mapGet m k2)
        ∧ (NodupKeys m → cacheSize (cacheGet m k now).2 + 1 = cacheSize m))
    ∧ (mapGet m k = some e → now < e.expiresAt →
        cacheGet m k now = (some e.data, m))
    ∧ cacheSize (cacheSet m k v ttl now2) =
        (if m.any fun p => p.1 == k then cacheSize m else cacheSize m + 1) := by
  refine ⟨?_, ?_, ?_, ?_⟩
  · intro hv
    unfold cacheGet at hv
    cases hg : mapGet m k with
    | none => rw [hg] at hv; simp at hv
    | some e2 =>
      rw [hg] at hv
      cases hval : isCacheValid now e2 with
      | false => simp [hval] at hv
      | true =>
        refine ⟨e2, rfl, by simpa [isCacheValid] using hval, ?_⟩
        simp [hval] at hv
        exact hv.symm
  · intro hg hexp
    have hval : isCacheValid now e = false := by
      simp only [isCacheValid, decide_eq_false_iff_not, not_lt]
      exact hexp
    have hcg : cacheGet m k now = (none, mapDelete m k) := by
      unfold cacheGet
      rw [hg]
      simp [hval]
    rw [hcg]
    exact ⟨rfl, mapGet_mapDelete_self m k,
      fun hne => mapGet_mapDelete_ne m k k2 hne,
      fun hn => by simpa [cacheSize] using mapDelete_length m k e hn hg⟩
  · intro hg hlt
    have hval : isCacheValid now e = true := by
      simp [isCacheValid, hlt]
    unfold cacheGet
    rw [hg]
    simp [hval]
  · simpa [cacheSize, cacheSet] using
      mapSet_length m k (createCacheEntry v ttl now2)

theorem b64char_ne_61 (k : Nat) : b64char k ≠ 61 := by
  unfold b64char
  split <;> [omega; skip]
  split <;> [omega; skip]
  split <;> [omega; skip]
  split <;> omega

theorem b64char_not_ws (k : Nat) : isB64Ws (b64char k) = false := by
  simp only [isB64Ws, Bool.or_eq_false_iff, decide_eq_false_iff_not]
  unfold b64char
  split <;> [omega; skip]
  split <;> [omega; skip]
  split <;> [omega; skip]
  split <;> omega

theorem b64val_b64char : ∀ k < 64, b64val (b64char k) = some k := by decide

theorem btoaChunks_not_ws (s : List Nat) :
    ∀ c ∈ btoaChunks s, isB64Ws c = false := by
  induction s using btoaChunks.induct with
  | case1 => simp [btoaChunks]
  | case2 b0 =>
    intro c hc
    simp only [btoaChunks, List.mem_cons, List.not_mem_nil, or_false] at hc
    rcases hc with rfl | rfl | rfl | rfl
    · exact b64char_not_ws _
    · exact b64char_not_ws _
    · rfl
    · rfl
  | case3 b0 b1 =>
    intro c hc
    simp only [btoaChunks, List.mem_cons, List.not_mem_nil, or_false] at hc
    rcases hc with rfl | rfl | rfl | rfl
    · exact b64char_not_ws _
    · exact b64char_not_ws _
    · exact b64char_not_ws _
    · rfl
  | case4 b0 b1 b2 rest ih =>
    intro c hc
    simp only [btoaChunks, List.mem_cons] at hc
    rcases hc with rfl | rfl | rfl | rfl | hc
    · exact b64char_not_ws _
    · exact b64char_not_ws _
    · exact b64char_not_ws _
    · exact b64char_not_ws _
    · exact ih c hc

theorem filter_btoaChunks (s : List Nat) :
    (btoaChunks s).filter (fun c => !isB64Ws c) = btoaChunks s := by
  refine List.filter_eq_self.mpr fun c hc => ?_
  simp [btoaChunks_not_ws s c hc]

theorem btoaChunks_length_mod (s : List Nat) :
    (btoaChunks s).length % 4 = 0 := by
  induction s using btoaChunks.induct with
  | case1 => rfl
  | case2 b0 => simp [btoaChunks]
  | case3 b0 b1 => simp [btoaChunks]
  | case4 b0 b1 b2 rest ih => simp [btoaChunks, Nat.add_mod, ih]

theorem btoaChunks_length_ge (s : List Nat) (h : s ≠ []) :
    4 ≤ (btoaChunks s).length := by
  match s with
  | [b0] => simp [btoaChunks]
  | [b0, b1] => simp [btoaChunks]
  | b0 :: b1 :: b2 :: rest => simp [btoaChunks]

theorem stripPad_append (a t : List Nat) (h : 2 ≤ t.length) :
    stripPad (a ++ t) = a ++ stripPad t := by
  rcases ht : t.reverse with _ | ⟨c1, _ | ⟨c2, r⟩⟩
  · have hlen := congrArg List.length ht
    rw [List.length_reverse] at hlen
    simp only [List.length_cons, List.length_nil] at hlen
    omega
  · have hlen := congrArg List.length ht
    rw [List.length_reverse] at hlen
    simp only [List.length_cons, List.length_nil] at hlen
    omega
  · have hrev : (a ++ t).reverse = c1 :: c2 :: (r ++ a.reverse) := by
      rw [List.reverse_append, ht]
      simp
    unfold stripPad
    rw [hrev, ht]
    by_cases h1 : c1 = 61 <;> by_cases h2 : c2 = 61 <;>
      simp [stripPadRev, h1, h2, List.reverse_append]

theorem stripPad_btoaChunks (s : List Nat) :
    stripPad (btoaChunks s) = strippedChunks s := by
  induction s using btoaChunks.induct with
  | case1 => rfl
  | case2 b0 =>
    simp [btoaChunks, strippedChunks, stripPad, stripPadRev]
  | case3 b0 b1 =>
    simp [btoaChunks, strippedChunks, stripPad, stripPadRev,
      b64char_ne_61 (b1 % 16 * 4)]
  | case4 b0 b1 b2 rest ih =>
    by_cases hrest : rest = []
    · subst hrest
      simp [btoaChunks, strippedChunks, stripPad, stripPadRev,
        b64char_ne_61 (b2 % 64)]
    · have h4 : btoaChunks (b0 :: b1 :: b2 :: rest) =
          [b64char (b0 / 4), b64char (b0 % 4 * 16 + b1 / 16),
            b64char (b1 % 16 * 4 + b2 / 64), b64char (b2 % 64)] ++
            btoaChunks rest := by
        simp [btoaChunks]
      rw [h4, stripPad_append _ _ (by have := btoaChunks_length_ge rest hrest; omega),
        ih]
      simp [strippedChunks]

theorem mapB64_strippedChunks (s : List Nat) (h : ∀ b ∈ s, b < 256) :
    mapB64 (strippedChunks s) = some (stripVals s) := by
  induction s using strippedChunks.induct with
  | case1 => rfl
  | case2 b0 =>
    have hb0 : b0 < 256 := h b0 (by simp)
    simp [strippedChunks, stripVals, mapB64,
      b64val_b64char (b0 / 4) (by omega),
      b64val_b64char (b0 % 4 * 16) (by omega)]
  | case3 b0 b1 =>
    have hb0 : b0 < 256 := h b0 (by simp)
    have hb1 : b1 < 256 := h b1 (by simp)
    simp [strippedChunks, stripVals, mapB64,
      b64val_b64char (b0 / 4) (by omega),
      b64val_b64char (b0 % 4 * 16 + b1 / 16) (by omega),
      b64val_b64char (b1 % 16 * 4) (by omega)]
  | case4 b0 b1 b2 rest ih =>
    have hb0 : b0 < 256 := h b0 (by simp)
    have hb1 : b1 < 256 := h b1 (by simp)
    have hb2 : b2 < 256 := h b2 (by simp)
    have ih' := ih fun b hb => h b (by simp [hb])
    simp [strippedChunks, stripVals, mapB64, ih',
      b64val_b64char (b0 / 4) (by omega),
      b64val_b64char (b0 % 4 * 16 + b1 / 16) (by omega),
      b64val_b64char (b1 % 16 * 4 + b2 / 64) (by omega),
      b64val_b64char (b2 % 64) (by omega)]

theorem strippedChunks_length_mod (s : List Nat) :
    (strippedChunks s).length % 4 ≠ 1 := by
  induction s using strippedChunks.induct with
  | case1 => simp [strippedChunks]
  | case2 b0 => simp [strippedChunks]
  | case3 b0 b1 => simp [strippedChunks]
  | case4 b0 b1 b2 rest ih =>
    simp only [strippedChunks, List.length_cons]
    omega

theorem decodeVals_stripVals (s : List Nat) (h : ∀ b ∈ s, b < 256) :
    decodeVals (stripVals s) = s := by
  induction s using stripVals.induct with
  | case1 => rfl
  | case2 b0 =>
    have hb0 : b0 < 256 := h b0 (by simp)
    simp [stripVals, decodeVals]
    omega
  | case3 b0 b1 =>
    have hb0 : b0 < 256 := h b0 (by simp)
    have hb1 : b1 < 256 := h b1 (by simp)
    simp [stripVals, decodeVals]
    constructor <;> omega
  | case4 b0 b1 b2 rest ih =>
    have hb0 : b0 < 256 := h b0 (by simp)
    have hb1 : b1 < 256 := h b1 (by simp)
    have hb2 : b2 < 256 := h b2 (by simp)
    have ih' := ih fun b hb => h b (by simp [hb])
    simp [stripVals, decodeVals, ih']
    refine ⟨by omega, by omega, by omega⟩

theorem atob_btoaChunks (s : List Nat) (h : ∀ b ∈ s, b < 256) :
    atob (btoaChunks s) = .ok s := by
  simp only [atob]
  rw [filter_btoaChunks, if_pos (btoaChunks_length_mod s), stripPad_btoaChunks,
    if_neg (strippedChunks_length_mod s), mapB64_strippedChunks s h]
  simp [decodeVals_stripVals s h]

theorem xorKeyAux_involutive (secret : JStr) (i : Nat) (t : JStr) :
    xorKeyAux secret i (xorKeyAux secret i t) = t := by
  induction t generalizing i with
  | nil => rfl
  | cons c cs ih =>
    simp only [xorKeyAux, ih (i + 1)]
    rw [Nat.xor_assoc, Nat.xor_self, Nat.xor_zero]

theorem xorKey_involutive (secret t : JStr) :
    xorKey secret (xorKey secret t) = t :=
  xorKeyAux_involutive secret 0 t

theorem xorKeyAux_length (secret : JStr) (i : Nat) (t : JStr) :
    (xorKeyAux secret i t).length = t.length := by
  induction t generalizing i with
  | nil => rfl
  | cons c cs ih => simp [xorKeyAux, ih (i + 1)]

/-- C7 counterexample: the round-trip as stated fails for the empty string
(stored as a falsy value that `getItem` reports as absent) and for a value
with a code unit above 255 (`setItem` itself throws inside `btoa` and stores
nothing, so the follow-up read is empty). -/
theorem encrypted_roundtrip_counterexample :
    encRoundTrip [107] [1] [] (fun _ => none) = none
    ∧ encRoundTrip [107] [1] [256] (fun _ => none) = none
    ∧ encSetItem [107] [1] [256] (fun _ => none) = .error () :=
  ⟨rfl, rfl, rfl⟩

/-- C7 (amended): for every non-empty value whose XOR against the repeating
secret key stays within bytes (in particular any non-empty Latin-1 value
with a Latin-1 or empty key), `setItem(k, v)` over a working base adapter
followed by `getItem(k)` returns `v` exactly; the empty string instead comes
back absent, and a value XORing outside byte range makes `setItem` throw. -/
theorem encrypted_roundtrip (secret k v : JStr) (st : Store)
    (hne : v ≠ []) (hbytes : ∀ c ∈ xorKey secret v, c < 256) :
    encRoundTrip secret k v st = some v := by
  have henc : encrypt secret v = .ok (btoaChunks (xorKey secret v)) := by
    unfold encrypt btoa
    rw [if_pos (List.all_eq_true.mpr fun c hc => by
      simpa using hbytes c hc)]
  have hxne : xorKey secret v ≠ [] := by
    intro hx
    apply hne
    have hl := congrArg List.length hx
    rw [xorKey, xorKeyAux_length] at hl
    simpa using List.length_eq_zero.mp (by simpa using hl)
  have hbne : btoaChunks (xorKey secret v) ≠ [] := by
    intro hb
    have hlen := btoaChunks_length_ge (xorKey secret v) hxne
    rw [hb] at hlen
    simp at hlen
  unfold encRoundTrip
  rw [show encSetItem secret k v st =
      .ok (storeSet st k (btoaChunks (xorKey secret v))) from by
    unfold encSetItem
    rw [henc]]
  unfold encGetItem storeSet
  simp [hbne]
  unfold decrypt
  rw [atob_btoaChunks _ hbytes]
  simp [xorKey_involutive]

/-- Witness for C7: the Latin-1 value "hi" with key "k" round-trips. -/
theorem encrypted_roundtrip_witness :
    encRoundTrip [107] [9] [104, 105] (fun _ => none) = some [104, 105] :=
  encrypted_roundtrip [107] [9] [104, 105] (fun _ => none) (by decide)
    (by decide)

/-- C8 counterexample: for the malformed stored string "!" (invalid base64)
`getItem` does not return the absent value. -/
theorem encrypted_getItem_malformed_counterexample :
    ¬encGetItem [107] [1] (storeSet (fun _ => none) [1] [33]) = none := by
  decide

/-- C8 (amended): a malformed stored string — one `atob` rejects — makes
`getItem` return the empty string: no exception and no garbage surfaces, and
the result is falsy (treated as absent by callers), but it is the present
empty string rather than the absent value. -/
theorem encrypted_getItem_malformed (secret k : JStr) (st : Store) (m : JStr)
    (hm : st k = some m) (hbad : atob m = .error ()) :
    encGetItem secret k st = some [] := by
  have hne : m ≠ [] := by
    intro h
    subst h
    rw [show atob ([] : JStr) = .ok [] from rfl] at hbad
    exact Except.noConfusion hbad
  unfold encGetItem
  rw [hm]
  simp [hne, decrypt, hbad]

/-- Witness for C8: the stored string "!" decodes to the empty string. -/
theorem encrypted_getItem_malformed_witness :
    encGetItem [107] [1] (storeSet (fun _ => none) [1] [33]) = some [] :=
  encrypted_getItem_malformed [107] [1] (storeSet (fun _ => none) [1] [33])
    [33] rfl rfl

theorem multiGetItem_ok (rs : List (Except Unit (Option JStr))) :
    ∃ r, multiGetItem rs = .ok r := by
  induction rs with
  | nil => exact ⟨none, rfl⟩
  | cons r rest ih =>
    cases r with
    | error e => simpa [multiGetItem] using ih
    | ok o =>
      cases o with
      | none => simpa [multiGetItem] using ih
      | some v => exact ⟨some v, rfl⟩

/-- C9 counterexample: `EncryptedStorageAdapter.setItem` propagates the
`btoa` failure for a value with code unit 256 even over a perfectly working
base adapter, and an IndexedDB store-request failure after a successful open
propagates out of `getItem`. -/
theorem storage_silent_failure_counterexample :
    encSetItemG [107] [256] (fun _ => .ok ()) = .error ()
    ∧ idbGetItem (.ok ()) (.error ()) = .error () :=
  ⟨rfl, rfl⟩

/-- C9 (amended): every adapter swallows its own backend's failures —
local/session/async storage, the mock store, and the multi-tier fan-out
always return `ok`, as do the obfuscating adapter's `getItem` and
`removeItem` over a base that does not throw — with the two exceptions the
code exhibits: `EncryptedStorageAdapter.setItem` succeeds exactly when every
XORed code unit fits a byte (otherwise the uncaught `btoa` error
propagates), and the IndexedDB adapter forwards the store request's outcome
once the database open succeeded (only an open failure is swallowed). -/
theorem storage_silent_failure (bg : Except Unit (Option JStr))
    (bs br : Except Unit Unit) (st : Store) (k v secret : JStr)
    (o : Option JStr) (tiers : List (Except Unit (Option JStr)))
    (ts : List (Except Unit Unit)) (baseSet : JStr → Except Unit Unit)
    (reqG : Except Unit (Option JStr)) :
    ((∀ e2, baseSet e2 = .ok ()) →
      (encSetItemG secret v baseSet = .ok () ↔
        (xorKey secret v).all (· < 256) = true))
    ∧ (∃ r, lsGetItem bg = .ok r) ∧ (∃ r, lsSetItem bs = .ok r)
    ∧ (∃ r, lsRemoveItem br = .ok r)
    ∧ (∃ r, ssGetItem bg = .ok r) ∧ (∃ r, ssSetItem bs = .ok r)
    ∧ (∃ r, ssRemoveItem br = .ok r)
    ∧ (∃ r, asGetItem bg = .ok r) ∧ (∃ r, asSetItem bs = .ok r)
    ∧ (∃ r, asRemoveItem br = .ok r)
    ∧ (∃ r, mockGetItem st k = .ok r) ∧ (∃ r, mockSetItem st k v = .ok r)
    ∧ (∃ r, mockRemoveItem st k = .ok r)
    ∧ (∃ r, multiGetItem tiers = .ok r)
    ∧ multiSetItem ts = .ok () ∧ multiRemoveItem ts = .ok ()
    ∧ (∃ r, encGetItemG secret (.ok o) = .ok r)
    ∧ encRemoveItemG (.ok ()) = .ok ()
    ∧ idbGetItem (.error ()) reqG = .ok none
    ∧ idbSetItem (.ok ()) bs = bs := by
  refine ⟨?_, ?_, ?_, ?_, ?_, ?_, ?_, ?_, ?_, ?_, ?_, ⟨_, rfl⟩, ⟨_, rfl⟩,
    multiGetItem_ok tiers, rfl, rfl, ?_, rfl, rfl, rfl⟩
  · intro hbase
    unfold encSetItemG encrypt btoa
    cases hall : (xorKey secret v).all (· < 256) with
    | true => simp [hall, hbase]
    | false => simp [hall]
  · exact match bg with | .ok w => ⟨w, rfl⟩ | .error _ => ⟨none, rfl⟩
  · exact match bs with | .ok u => ⟨u, rfl⟩ | .error _ => ⟨(), rfl⟩
  · exact match br with | .ok u => ⟨u, rfl⟩ | .error _ => ⟨(), rfl⟩
  · exact match bg with | .ok w => ⟨w, rfl⟩ | .error _ => ⟨none, rfl⟩
  · exact match bs with | .ok u => ⟨u, rfl⟩ | .error _ => ⟨(), rfl⟩
  · exact match br with | .ok u => ⟨u, rfl⟩ | .error _ => ⟨(), rfl⟩
  · exact match bg with | .ok w => ⟨w, rfl⟩ | .error _ => ⟨none, rfl⟩
  · exact match bs with | .ok u => ⟨u, rfl⟩ | .error _ => ⟨(), rfl⟩
  · exact match br with | .ok u => ⟨u, rfl⟩ | .error _ => ⟨(), rfl⟩
  · exact ⟨_, rfl⟩
  · exact match o with
      | none => ⟨none, rfl⟩
      | some ev => ⟨_, rfl⟩

/-- Witness for C9: a throwing `localStorage` read degrades to `null`, and
the encrypted `setItem` criterion instantiated on a byte-range value. -/
theorem storage_silent_failure_witness :
    (∃ r, lsGetItem (.error ()) = .ok r)
    ∧ (encSetItemG [107] [104] (fun _ => .ok ()) = .ok () ↔
        (xorKey [107] [104]).all (· < 256) = true) := by
  obtain ⟨h1, h2, hrest⟩ := storage_silent_failure (.error ()) (.ok ())
    (.ok ()) (fun _ => none) [1] [104] [107] none [] [] (fun _ => .ok ())
    (.ok none)
  exact ⟨h2, h1 fun e2 => rfl⟩

theorem hexVal_hexDig : ∀ n < 16, hexVal (hexDig n) = some n := by decide

theorem parseStrAux_cons (c : Nat) (rest : JStr) :
    parseStrAux (c :: rest) =
      if c = 34 then some ([], rest)
      else if c = 92 then
        match rest with
        | 117 :: h1 :: h2 :: h3 :: h4 :: r2 =>
          match hexVal h1, hexVal h2, hexVal h3, hexVal h4 with
          | some v1, some v2, some v3, some v4 =>
            (parseStrAux r2).map fun p =>
              ((v1 * 4096 + v2 * 256 + v3 * 16 + v4) :: p.1, p.2)
          | _, _, _, _ => none
        | k :: r2 =>
          match simpleUnesc k with
          | some ch => (parseStrAux r2).map fun p => (ch :: p.1, p.2)
          | none => none
        | [] => none
      else (parseStrAux rest).map fun p => (c :: p.1, p.2) := by
  rw [parseStrAux.eq_def]
  rfl

theorem parseStrAux_escape (s r : JStr) :
    parseStrAux (escape s ++ 34 :: r) = some (s, r) := by
  induction s with
  | nil =>
    show parseStrAux (34 :: r) = some ([], r)
    rw [parseStrAux_cons]
    simp
  | cons c cs ih =>
    have hesc : escape (c :: cs) = escChar c ++ escape cs := rfl
    rw [hesc, List.append_assoc]
    by_cases h34 : c = 34
    · subst h34; simp [escChar, parseStrAux_cons, simpleUnesc, ih]
    · by_cases h92 : c = 92
      · subst h92; simp [escChar, parseStrAux_cons, simpleUnesc, ih]
      · by_cases h8 : c = 8
        · subst h8; simp [escChar, parseStrAux_cons, simpleUnesc, ih]
        · by_cases h9 : c = 9
          · subst h9; simp [escChar, parseStrAux_cons, simpleUnesc, ih]
          · by_cases h10 : c = 10
            · subst h10; simp [escChar, parseStrAux_cons, simpleUnesc, ih]
            · by_cases h12 : c = 12
              · subst h12; simp [escChar, parseStrAux_cons, simpleUnesc, ih]
              · by_cases h13 : c = 13
                · subst h13
                  simp [escChar, parseStrAux_cons, simpleUnesc, ih]
                · by_cases hctl : c < 32
                  · simp only [escChar, h34, h92, h8, h9, h10, h12, h13,
                      if_false, if_pos hctl, List.cons_append,
                      List.nil_append]
                    rw [parseStrAux_cons]
                    simp only [if_pos rfl, if_neg (by omega : ¬(92 : Nat) = 34)]
                    simp [show hexVal 48 = some 0 from rfl,
                      hexVal_hexDig (c / 16) (by omega),
                      hexVal_hexDig (c % 16) (by omega), ih]
                    omega
                  · simp [escChar, h34, h92, h8, h9, h10, h12, h13, hctl,
                      parseStrAux_cons, ih]

theorem jsonStr_peel {s1 s2 r1 r2 : JStr}
    (h : jsonStr s1 ++ r1 = jsonStr s2 ++ r2) : s1 = s2 ∧ r1 = r2 := by
  have h1 : escape s1 ++ 34 :: r1 = escape s2 ++ 34 :: r2 := by
    simpa [jsonStr, List.append_assoc] using h
  have h3 := parseStrAux_escape s1 r1
  rw [h1, parseStrAux_escape s2 r2] at h3
  simp only [Option.some.injEq, Prod.mk.injEq] at h3
  exact ⟨h3.1.symm, h3.2.symm⟩

theorem arrBody_peel : ∀ (l1 l2 : List JStr) (r1 r2 : JStr),
    arrBody l1 ++ 93 :: r1 = arrBody l2 ++ 93 :: r2 → l1 = l2 ∧ r1 = r2 := by
  intro l1
  induction l1 with
  | nil =>
    intro l2 r1 r2 h
    cases l2 with
    | nil => simpa [arrBody] using h
    | cons y ys => simp [arrBody, jsonStr] at h
  | cons x xs ih =>
    intro l2 r1 r2 h
    cases l2 with
    | nil => simp [arrBody, jsonStr] at h
    | cons y ys =>
      simp only [arrBody, List.append_assoc] at h
      obtain ⟨hxy, htail⟩ := jsonStr_peel h
      subst hxy
      cases xs with
      | nil =>
        cases ys with
        | nil => simpa [arrTail] using htail
        | cons y' ys' => simp [arrTail] at htail
      | cons x' xs' =>
        cases ys with
        | nil => simp [arrTail] at htail
        | cons y' ys' =>
          simp only [arrTail, List.cons_append, List.cons.injEq,
            true_and] at htail
          have harr : arrBody (x' :: xs') ++ 93 :: r1 =
              arrBody (y' :: ys') ++ 93 :: r2 := by
            simpa [arrBody, List.append_assoc] using htail
          obtain ⟨he, hr⟩ := ih (y' :: ys') r1 r2 harr
          exact ⟨by rw [he], hr⟩

theorem serArr_peel {l1 l2 : List JStr} {r1 r2 : JStr}
    (h : serArr l1 ++ r1 = serArr l2 ++ r2) : l1 = l2 ∧ r1 = r2 := by
  have h1 : arrBody l1 ++ 93 :: r1 = arrBody l2 ++ 93 :: r2 := by
    simpa [serArr, List.append_assoc] using h
  exact arrBody_peel l1 l2 r1 r2 h1

theorem serBool_peel {b1 b2 : Bool} {r1 r2 : JStr}
    (h : serBool b1 ++ r1 = serBool b2 ++ r2) : b1 = b2 ∧ r1 = r2 := by
  cases b1 <;> cases b2 <;> simp [serBool] at h ⊢ <;> exact h

theorem serVal_peel : ∀ {v1 v2 : FieldVal} {r1 r2 : JStr},
    serVal v1 ++ r1 = serVal v2 ++ r2 → v1 = v2 ∧ r1 = r2 := by
  intro v1 v2 r1 r2 h
  cases v1 with
  | fstr s1 =>
    cases v2 with
    | fstr s2 =>
      obtain ⟨he, hr⟩ := @jsonStr_peel s1 s2 r1 r2 h
      exact ⟨by rw [he], hr⟩
    | farr l2 => simp [serVal, jsonStr, serArr] at h
    | fbool b2 => cases b2 <;> simp [serVal, jsonStr, serBool] at h
  | farr l1 =>
    cases v2 with
    | fstr s2 => simp [serVal, jsonStr, serArr] at h
    | farr l2 =>
      obtain ⟨he, hr⟩ := serArr_peel h
      exact ⟨by rw [he], hr⟩
    | fbool b2 => cases b2 <;> simp [serVal, serArr, serBool] at h
  | fbool b1 =>
    cases v2 with
    | fstr s2 => cases b1 <;> simp [serVal, jsonStr, serBool] at h
    | farr l2 => cases b1 <;> simp [serVal, serArr, serBool] at h
    | fbool b2 =>
      obtain ⟨he, hr⟩ := serBool_peel h
      exact ⟨by rw [he], hr⟩

theorem split_first_mark (mark : Nat) :
    ∀ (a1 a2 w1 w2 : JStr), mark ∉ a1 → mark ∉ a2 →
      a1 ++ mark :: w1 = a2 ++ mark :: w2 → a1 = a2 ∧ w1 = w2 := by
  intro a1
  induction a1 with
  | nil =>
    intro a2 w1 w2 _ h2 h
    cases a2 with
    | nil => simpa using h
    | cons y ys =>
      exfalso
      simp only [List.nil_append, List.cons_append, List.cons.injEq] at h
      exact h2 (h.1 ▸ List.mem_cons_self mark ys)
  | cons x xs ih =>
    intro a2 w1 w2 h1 h2 h
    cases a2 with
    | nil =>
      exfalso
      simp only [List.nil_append, List.cons_append, List.cons.injEq] at h
      exact h1 (h.1.symm ▸ List.mem_cons_self mark xs)
    | cons y ys =>
      simp only [List.cons_append, List.cons.injEq] at h
      obtain ⟨hxy, htail⟩ := h
      subst hxy
      have hnx : mark ∉ xs := fun hm => h1 (List.mem_cons_of_mem x hm)
      have hny : mark ∉ ys := fun hm => h2 (List.mem_cons_of_mem x hm)
      obtain ⟨he, hw⟩ := ih ys w1 w2 hnx hny htail
      exact ⟨by rw [he], hw⟩

theorem split_last_mark (mark : Nat) (u1 u2 b1 b2 : JStr)
    (hb1 : mark ∉ b1) (hb2 : mark ∉ b2)
    (h : u1 ++ mark :: b1 = u2 ++ mark :: b2) : u1 = u2 ∧ b1 = b2 := by
  have hrev : b1.reverse ++ mark :: u1.reverse =
      b2.reverse ++ mark :: u2.reverse := by
    have := congrArg List.reverse h
    simpa [List.reverse_append, List.append_assoc] using this
  obtain ⟨hx, hy⟩ := split_first_mark mark b1.reverse b2.reverse _ _
    (by simpa using hb1) (by simpa using hb2) hrev
  constructor
  · have := congrArg List.reverse hy
    simpa using this
  · have := congrArg List.reverse hx
    simpa using this

theorem glueTail_inj {ps1 ps2 : List JStr} (h : glueTail ps1 = glueTail ps2) :
    glue ps1 = glue ps2 := by
  cases ps1 with
  | nil =>
    cases ps2 with
    | nil => rfl
    | cons q qs => exact absurd h (by simp [glueTail])
  | cons p ps =>
    cases ps2 with
    | nil => exact absurd h (by simp [glueTail])
    | cons q qs =>
      simp only [glueTail, List.cons.injEq, true_and] at h
      simpa only [glue] using h

theorem fieldPieces_shape (fs : List (JStr × Option FieldVal)) :
    glue (fieldPieces fs) = [] ∨
      ∃ t v w, t ∈ fs.map Prod.fst ∧
        glue (fieldPieces fs) = 34 :: (t ++ 34 :: 58 :: (serVal v ++ w)) := by
  induction fs with
  | nil => exact Or.inl rfl
  | cons p rest ih =>
    obtain ⟨tag, o⟩ := p
    cases o with
    | none =>
      rcases ih with hnil | ⟨t, v, w, ht, hw⟩
      · exact Or.inl (by simpa [fieldPieces] using hnil)
      · exact Or.inr ⟨t, v, w, by simp [ht], by simpa [fieldPieces] using hw⟩
    | some v =>
      refine Or.inr ⟨tag, v, glueTail (fieldPieces rest), by simp, ?_⟩
      simp [fieldPieces, glue, List.append_assoc]

theorem fieldPieces_glue_inj :
    ∀ (fs1 fs2 : List (JStr × Option FieldVal)),
      fs1.map Prod.fst = fs2.map Prod.fst →
      (fs1.map Prod.fst).Nodup →
      (∀ t ∈ fs1.map Prod.fst, (34 : Nat) ∉ t) →
      glue (fieldPieces fs1) = glue (fieldPieces fs2) → fs1 = fs2 := by
  intro fs1
  induction fs1 with
  | nil =>
    intro fs2 hmap _ _ _
    cases fs2 with
    | nil => rfl
    | cons q qs => simp at hmap
  | cons p ps ih =>
    intro fs2 hmap hnd htags h
    cases fs2 with
    | nil => simp at hmap
    | cons q qs =>
      obtain ⟨tag, o1⟩ := p
      obtain ⟨tag2, o2⟩ := q
      simp only [List.map_cons, List.cons.injEq] at hmap
      obtain ⟨htag, hmaps⟩ := hmap
      subst htag
      have hnd' : (ps.map Prod.fst).Nodup := (List.nodup_cons.mp hnd).2
      have hnotin : tag ∉ ps.map Prod.fst := (List.nodup_cons.mp hnd).1
      have htags' : ∀ t ∈ ps.map Prod.fst, (34 : Nat) ∉ t :=
        fun t ht => htags t (by simp [ht])
      have htag34 : (34 : Nat) ∉ tag := htags tag (by simp)
      cases o1 with
      | none =>
        cases o2 with
        | none =>
          have := ih qs hmaps hnd' htags' (by simpa [fieldPieces] using h)
          rw [this]
        | some v2 =>
          exfalso
          have h' : glue (fieldPieces ps) =
              34 :: (tag ++ 34 :: 58 ::
                (serVal v2 ++ glueTail (fieldPieces qs))) := by
            simpa [fieldPieces, glue, List.append_assoc] using h
          rcases fieldPieces_shape ps with hnil | ⟨t, v, w, htmem, heq⟩
          · rw [hnil] at h'
            exact List.noConfusion h'
          · rw [heq] at h'
            simp only [List.cons.injEq, true_and] at h'
            obtain ⟨hteq, -⟩ := split_first_mark 34 t tag _ _
              (htags' t htmem) htag34 h'
            exact hnotin (hteq ▸ htmem)
      | some v1 =>
        cases o2 with
        | none =>
          exfalso
          have h' : glue (fieldPieces qs) =
              34 :: (tag ++ 34 :: 58 ::
                (serVal v1 ++ glueTail (fieldPieces ps))) := by
            simpa [fieldPieces, glue, List.append_assoc] using h.symm
          rcases fieldPieces_shape qs with hnil | ⟨t, v, w, htmem, heq⟩
          · rw [hnil] at h'
            exact List.noConfusion h'
          · rw [heq] at h'
            simp only [List.cons.injEq, true_and] at h'
            have htmem' : t ∈ ps.map Prod.fst := hmaps ▸ htmem
            obtain ⟨hteq, -⟩ := split_first_mark 34 t tag _ _
              (htags' t htmem') htag34 h'
            exact hnotin (hteq ▸ htmem')
        | some v2 =>
          have h' : serVal v1 ++ glueTail (fieldPieces ps) =
              serVal v2 ++ glueTail (fieldPieces qs) := by
            have h2 : tag ++ 34 :: 58 ::
                  (serVal v1 ++ glueTail (fieldPieces ps)) =
                tag ++ 34 :: 58 ::
                  (serVal v2 ++ glueTail (fieldPieces qs)) := by
              simpa [fieldPieces, glue, List.append_assoc] using h
            have h3 := List.append_cancel_left h2
            simpa using h3
          obtain ⟨hv, hg⟩ := serVal_peel h'
          have := ih qs hmaps hnd' htags' (glueTail_inj hg)
          rw [hv, this]

theorem b64char_ne_58 (k : Nat) : b64char k ≠ 58 := by
  unfold b64char
  split <;> [omega; skip]
  split <;> [omega; skip]
  split <;> [omega; skip]
  split <;> omega

theorem btoaChunks_ne_58 (s : List Nat) : ∀ c ∈ btoaChunks s, c ≠ 58 := by
  induction s using btoaChunks.induct with
  | case1 => simp [btoaChunks]
  | case2 b0 =>
    intro c hc
    simp only [btoaChunks, List.mem_cons, List.not_mem_nil, or_false] at hc
    rcases hc with rfl | rfl | rfl | rfl
    · exact b64char_ne_58 _
    · exact b64char_ne_58 _
    · omega
    · omega
  | case3 b0 b1 =>
    intro c hc
    simp only [btoaChunks, List.mem_cons, List.not_mem_nil, or_false] at hc
    rcases hc with rfl | rfl | rfl | rfl
    · exact b64char_ne_58 _
    · exact b64char_ne_58 _
    · exact b64char_ne_58 _
    · omega
  | case4 b0 b1 b2 rest ih =>
    intro c hc
    simp only [btoaChunks, List.mem_cons] at hc
    rcases hc with rfl | rfl | rfl | rfl | hc
    · exact b64char_ne_58 _
    · exact b64char_ne_58 _
    · exact b64char_ne_58 _
    · exact b64char_ne_58 _
    · exact ih c hc

theorem btoa_ok_inj {s1 s2 b : JStr} (h1 : btoa s1 = .ok b)
    (h2 : btoa s2 = .ok b) : s1 = s2 := by
  unfold btoa at h1 h2
  cases ha1 : s1.all (· < 256) with
  | false => rw [ha1] at h1; simp at h1
  | true =>
    cases ha2 : s2.all (· < 256) with
    | false => rw [ha2] at h2; simp at h2
    | true =>
      rw [ha1] at h1
      rw [ha2] at h2
      simp only [if_true] at h1 h2
      have hby1 : ∀ c ∈ s1, c < 256 := fun c hc => by
        simpa using List.all_eq_true.mp ha1 c hc
      have hby2 : ∀ c ∈ s2, c < 256 := fun c hc => by
        simpa using List.all_eq_true.mp ha2 c hc
      have ht1 := atob_btoaChunks s1 hby1
      have ht2 := atob_btoaChunks s2 hby2
      have hb1 : btoaChunks s1 = b := by simpa using h1
      have hb2 : btoaChunks s2 = b := by simpa using h2
      rw [hb1] at ht1
      rw [hb2] at ht2
      rw [ht1] at ht2
      simpa using ht2

theorem jsonConfig_inj {c1 c2 : AccessControlConfig JStr}
    (h : jsonConfig c1 = jsonConfig c2) : c1 = c2 := by
  have h0 : (123 : Nat) :: (glue (fieldPieces (configFields c1)) ++ [125]) =
      123 :: (glue (fieldPieces (configFields c2)) ++ [125]) := h
  have h1 : glue (fieldPieces (configFields c1)) =
      glue (fieldPieces (configFields c2)) :=
    List.append_cancel_right (List.cons.inj h0).2
  have htagseq : (configFields c1).map Prod.fst =
      [asciiL "feature", asciiL "anyFeature", asciiL "allFeatures",
        asciiL "permission", asciiL "anyPermission", asciiL "allPermissions",
        asciiL "requireBoth"] := rfl
  have hnodup : ((configFields c1).map Prod.fst).Nodup := by
    rw [htagseq]
    decide
  have htags34 : ∀ t ∈ (configFields c1).map Prod.fst, (34 : Nat) ∉ t := by
    rw [htagseq]
    decide
  have h2 := fieldPieces_glue_inj (configFields c1) (configFields c2)
    rfl hnodup htags34 h1
  cases c1 with
  | mk f1 af1 alf1 p1 ap1 alp1 rb1 =>
    cases c2 with
    | mk f2 af2 alf2 p2 ap2 alp2 rb2 =>
      simp only [configFields, List.cons.injEq, Prod.mk.injEq, true_and,
        and_true] at h2
      obtain ⟨hf, haf, half, hp, hap, halp, hrb⟩ := h2
      have hstr : Function.Injective FieldVal.fstr := fun a b hab => by
        injection hab
      have harr : Function.Injective FieldVal.farr := fun a b hab => by
        injection hab
      have hbool : Function.Injective FieldVal.fbool := fun a b hab => by
        injection hab
      simp only [AccessControlConfig.mk.injEq]
      exact ⟨Option.map_injective hstr hf, Option.map_injective harr haf,
        Option.map_injective harr half, Option.map_injective hstr hp,
        Option.map_injective harr hap, Option.map_injective harr halp,
        Option.map_injective hbool hrb⟩

/-- C6 counterexample: a present user identifier "anonymous" (and likewise
an empty-string identifier) produces exactly the same key as the anonymous
case, although the user identifiers differ. -/
theorem generateCacheKey_anonymous_counterexample :
    generateCacheKey { feature := some [102] } (some (asciiL "anonymous"))
        = generateCacheKey { feature := some [102] } none
    ∧ generateCacheKey { feature := some [102] } (some [])
        = generateCacheKey { feature := some [102] } none
    ∧ some (asciiL "anonymous") ≠ (none : Option JStr)
    ∧ some ([] : JStr) ≠ (none : Option JStr) :=
  ⟨rfl, rfl, by simp, by simp⟩

/-- C6 (amended): `generateCacheKey` is a function of the config and the
effective user string (the identifier when present and non-empty, else the
"anonymous" sentinel): on configs whose serialization stays in `btoa`'s
Latin-1 domain, two calls yield the identical key exactly when the configs
are equal and the effective user strings are equal — so keys are stable, and
collisions happen only where the identifier collapses to the sentinel
(absent, empty, or literally "anonymous"). -/
theorem generateCacheKey_stable_collision_resistant
    (c1 c2 : AccessControlConfig JStr) (u1 u2 : Option JStr)
    (h1 : (jsonConfig c1).all (· < 256) = true)
    (h2 : (jsonConfig c2).all (· < 256) = true) :
    generateCacheKey c1 u1 = generateCacheKey c2 u2 ↔
      (c1 = c2 ∧ jsUser u1 = jsUser u2) := by
  have hb1 : btoa (jsonConfig c1) = .ok (btoaChunks (jsonConfig c1)) := by
    unfold btoa
    rw [if_pos h1]
  have hb2 : btoa (jsonConfig c2) = .ok (btoaChunks (jsonConfig c2)) := by
    unfold btoa
    rw [if_pos h2]
  constructor
  · intro h
    unfold generateCacheKey at h
    rw [hb1, hb2] at h
    simp only [Except.ok.injEq] at h
    rw [List.append_assoc, List.append_assoc] at h
    have h' := List.append_cancel_left h
    rw [List.cons_append, List.cons_append] at h'
    have h'' : jsUser u1 ++ 58 :: btoaChunks (jsonConfig c1) =
        jsUser u2 ++ 58 :: btoaChunks (jsonConfig c2) :=
      (List.cons.inj h').2
    obtain ⟨huser, hchunks⟩ := split_last_mark 58 _ _ _ _
      (fun hm => btoaChunks_ne_58 _ 58 hm rfl)
      (fun hm => btoaChunks_ne_58 _ 58 hm rfl) h''
    have hjson : jsonConfig c1 = jsonConfig c2 :=
      btoa_ok_inj hb1 (by rw [hb2, hchunks])
    exact ⟨jsonConfig_inj hjson, huser⟩
  · rintro ⟨rfl, hu⟩
    unfold generateCacheKey
    rw [hb1, hu]

/-- Witness for C6: a self-comparison with a colon-bearing user identifier
satisfies the Latin-1 side conditions and the equivalence. -/
theorem generateCacheKey_stable_collision_resistant_witness :
    generateCacheKey { feature := some [102] } (some [117, 58, 118]) =
        generateCacheKey { feature := some [102] } (some [117, 58, 118]) ↔
      (({ feature := some [102] } : AccessControlConfig JStr) =
          { feature := some [102] } ∧
        jsUser (some [117, 58, 118]) = jsUser (some [117, 58, 118])) :=
  generateCacheKey_stable_collision_resistant _ _ _ _ (by decide) (by decide)

/-- Witness for C5: reading key "a" at exactly its expiry time misses, evicts
the entry, leaves other keys alone, and drops the size by one. -/
theorem cache_expiry_eviction_witness :
    (cacheGet [("a", (⟨7, 0, 5⟩ : CacheEntry Nat))] "a" 5).1 = none
    ∧ mapGet (cacheGet [("a", (⟨7, 0, 5⟩ : CacheEntry Nat))] "a" 5).2 "a" = none
    ∧ mapGet (cacheGet [("a", (⟨7, 0, 5⟩ : CacheEntry Nat))] "a" 5).2 "b" =
        mapGet [("a", (⟨7, 0, 5⟩ : CacheEntry Nat))] "b"
    ∧ cacheSize (cacheGet [("a", (⟨7, 0, 5⟩ : CacheEntry Nat))] "a" 5).2 + 1 =
        cacheSize [("a", (⟨7, 0, 5⟩ : CacheEntry Nat))] := by
  have h := (cache_expiry_eviction [("a", ⟨7, 0, 5⟩)] "a" "b" 5 ⟨7, 0, 5⟩ 7
      none 0).2.1 (by decide) (by decide)
  exact ⟨h.1, h.2.1, h.2.2.1 (by decide),
    h.2.2.2 (by unfold NodupKeys; decide)⟩

end RAC
